import Mathlib

/-!
Shallow embedding of the reconciliation and session-aggregation core of the
b2Click stock-count application.

The embedded functions are direct translations of:
* `reportData` (the reconciliation aggregator in `ReportView`),
* `handleQuantityUpdate` / `handleFactorUpdate` (validated edits in `ReportView`),
* `getActiveSessions` (the session summarizer in the storage service),
* `addInventoryLog` / `handleAdd` (the scan ledger append path),
* `updateInvoiceItemQuantity` / `updateInvoiceItemFactor` (the invoice store).

JavaScript `Record`/object maps are embedded as insertion-ordered association
lists; JavaScript numbers are embedded as rationals; optional / possibly-NaN
numeric inputs are embedded as `Option ℚ`; truthiness of a string is
emptiness-testing.  `Array.prototype.sort` (stable in ECMAScript) is embedded
as insertion sort, which is stable with the same comparator semantics.
-/

/-- A catalog entry (`Product` in `types.ts`). -/
structure Product where
  barcode : String
  systemCode : String
  name : String

deriving instance DecidableEq, Repr for Product

/-- One expected line of the invoice (`InvoiceItem` in `types.ts`).
`conversionFactor` is an optional field in the source (`conversionFactor?`). -/
structure InvoiceItem where
  barcode : String
  systemCode : String
  name : String
  invoiceQuantity : ℚ
  conversionFactor : Option ℚ

deriving instance DecidableEq, Repr for InvoiceItem

/-- One scan event of the append-only ledger (`InventoryLog` in `types.ts`). -/
structure InventoryLog where
  id : String
  invoiceNumber : String
  userId : String
  barcode : String
  quantity : ℚ
  timestamp : ℚ

deriving instance DecidableEq, Repr for InventoryLog

/-- The derived row status (`ReportItem.status` in `types.ts`). -/
inductive ReportStatus where
  | MATCH
  | MISSING
  | SURPLUS

deriving instance DecidableEq, Repr for ReportStatus

/-- A derived reconciliation row (`ReportItem` in `types.ts`). -/
structure ReportItem where
  systemCode : String
  barcode : String
  name : String
  invoiceQuantity : ℚ
  conversionFactor : ℚ
  convertedQuantity : ℚ
  countedQuantity : ℚ
  difference : ℚ
  status : ReportStatus

deriving instance DecidableEq, Repr for ReportItem

/-- A derived scanned-but-unmatched line (`ExtraItem` in `ReportView`). -/
structure ExtraItem where
  barcode : String
  systemCode : String
  name : String
  countedQuantity : ℚ

deriving instance DecidableEq, Repr for ExtraItem

/-- One invoice's activity summary (`InventorySessionSummary` in `types.ts`). -/
structure InventorySessionSummary where
  invoiceNumber : String
  lastActivity : ℚ
  totalItemsScanned : ℕ
  usersInvolved : List String

deriving instance DecidableEq, Repr for InventorySessionSummary

/-- `scanCounts[b] = (scanCounts[b] || 0) + q`: add `q` to the entry for key
`b` of an insertion-ordered association list, appending a new entry when the
key is absent (JavaScript object-update semantics). -/
def bumpCount : List (String × ℚ) → String → ℚ → List (String × ℚ)
  | [], b, q => [(b, q)]
  | (k, v) :: rest, b, q =>
      if k = b then (k, v + q) :: rest else (k, v) :: bumpCount rest b q

/-- The `scanCounts` map of `reportData`: total scanned quantity per barcode,
accumulated over the logs in order. -/
def scanCountsOf (logs : List InventoryLog) : List (String × ℚ) :=
  logs.foldl (fun m log => bumpCount m log.barcode log.quantity) []

/-- Key lookup in the association-list embedding of a JavaScript record
(`m[b]`, `none` standing for `undefined`). -/
def lookupQ (m : List (String × ℚ)) (b : String) : Option ℚ :=
  (m.find? (fun e => e.1 == b)).map (fun e => e.2)

/-- The keys of the association list (`Object.keys`). -/
def keysOf (m : List (String × ℚ)) : List String :=
  m.map (fun e => e.1)

/-- The identifier-resolution block inside `reportData`'s `map` callback:
returns `(counted, matchedBarcode)`, with `matchedBarcode = ""` when nothing
matched (the JavaScript code leaves `matchedBarcode` as `''` in that case). -/
def resolveCounted (counts : List (String × ℚ)) (products : List Product)
    (item : InvoiceItem) : ℚ × String :=
  if item.barcode ≠ "" then
    match lookupQ counts item.barcode with
    | some q => (q, item.barcode)
    | none => (0, "")
  else if item.systemCode ≠ "" then
    match products.find? (fun p => p.systemCode == item.systemCode) with
    | some p =>
        if p.barcode ≠ "" then
          match lookupQ counts p.barcode with
          | some q => (q, p.barcode)
          | none => (0, "")
        else (0, "")
    | none => (0, "")
  else (0, "")

/-- `const factor = item.conversionFactor || 1` (JavaScript `||` maps the
absent field and `0` to `1`). -/
def conversionFactorOf (item : InvoiceItem) : ℚ :=
  match item.conversionFactor with
  | none => 1
  | some f => if f = 0 then 1 else f

/-- The status assignment of `reportData`: `MATCH`, overridden to `MISSING`
when the difference is negative and to `SURPLUS` when it is positive. -/
def statusOf (diff : ℚ) : ReportStatus :=
  if diff < 0 then ReportStatus.MISSING
  else if diff > 0 then ReportStatus.SURPLUS
  else ReportStatus.MATCH

/-- One reconciliation row of `reportData` for one invoice item. -/
def reportRowOf (counts : List (String × ℚ)) (products : List Product)
    (item : InvoiceItem) : ReportItem :=
  let r := resolveCounted counts products item
  let factor := conversionFactorOf item
  let convertedQty := item.invoiceQuantity * factor
  let diff := r.1 - convertedQty
  { systemCode := if item.systemCode = "" then "-" else item.systemCode,
    barcode := if item.barcode ≠ "" then item.barcode
               else if r.2 ≠ "" then r.2 else "-",
    name := item.name,
    invoiceQuantity := item.invoiceQuantity,
    conversionFactor := factor,
    convertedQuantity := convertedQty,
    countedQuantity := r.1,
    difference := diff,
    status := statusOf diff }

/-- The `matchedBarcodes.add(matchedBarcode)` step: the barcode consumed by
one invoice item, when its resolution succeeded. -/
def matchedBarcodeOf (counts : List (String × ℚ)) (products : List Product)
    (item : InvoiceItem) : Option String :=
  let r := resolveCounted counts products item
  if r.2 ≠ "" then some r.2 else none

/-- The full `matchedBarcodes` set accumulated over all invoice items. -/
def consumedBarcodes (counts : List (String × ℚ)) (products : List Product)
    (items : List InvoiceItem) : List String :=
  items.filterMap (matchedBarcodeOf counts products)

/-- One extra line of `reportData` for a never-matched scanned barcode. -/
def extraOf (products : List Product) (e : String × ℚ) : ExtraItem :=
  match products.find? (fun p => p.barcode == e.1) with
  | some p =>
      { barcode := e.1,
        systemCode := if p.systemCode = "" then "-" else p.systemCode,
        name := p.name,
        countedQuantity := e.2 }
  | none =>
      { barcode := e.1,
        systemCode := "-",
        name := "Não Cadastrado / Desconhecido",
        countedQuantity := e.2 }

/-- The aggregator's output: matched rows plus unmatched extras. -/
structure Report where
  rows : List ReportItem
  extras : List ExtraItem

deriving instance DecidableEq, Repr for Report

/-- The reconciliation aggregator `reportData` of `ReportView`:
build `scanCounts`, map every invoice item to a row, and list every scanned
barcode not in `matchedBarcodes` as an extra. -/
def reportData (items : List InvoiceItem) (logs : List InventoryLog)
    (products : List Product) : Report :=
  let counts := scanCountsOf logs
  let matched := consumedBarcodes counts products items
  { rows := items.map (reportRowOf counts products),
    extras := (counts.filter (fun e => ! matched.contains e.1)).map (extraOf products) }

/-- Total quantity scanned for one barcode across a list of logs. -/
def sumFor (logs : List InventoryLog) (b : String) : ℚ :=
  ((logs.filter (fun log => log.barcode == b)).map (fun log => log.quantity)).sum

/-- First-appearance-order deduplication step (`push` if not yet contained). -/
def pushUnique (acc : List String) (x : String) : List String :=
  if acc.contains x then acc else acc ++ [x]

/-- First-appearance-order deduplication of a list of strings. -/
def dedupFirst (l : List String) : List String :=
  l.foldl pushUnique []

/-- Maximum timestamp of a list of logs (`0` for the empty list, which never
arises for a session group). -/
def maxTs : List InventoryLog → ℚ
  | [] => 0
  | log :: rest => rest.foldl (fun a l => max a l.timestamp) log.timestamp

/-- A freshly initialized session entry of `getActiveSessions`. -/
def freshSession (log : InventoryLog) : InventorySessionSummary :=
  { invoiceNumber := log.invoiceNumber,
    lastActivity := log.timestamp,
    totalItemsScanned := 0,
    usersInvolved := [] }

/-- The per-log update of a session entry in `getActiveSessions`:
`lastActivity = max(..)`, `totalItemsScanned += 1`, push the user if new. -/
def bumpSession (s : InventorySessionSummary) (log : InventoryLog) :
    InventorySessionSummary :=
  { s with
    lastActivity := max s.lastActivity log.timestamp,
    totalItemsScanned := s.totalItemsScanned + 1,
    usersInvolved :=
      if s.usersInvolved.contains log.userId then s.usersInvolved
      else s.usersInvolved ++ [log.userId] }

/-- Process one log against the insertion-ordered `sessionsMap`: update the
entry keyed by its invoice number, creating it first when absent. -/
def insertSessionLog : List InventorySessionSummary → InventoryLog →
    List InventorySessionSummary
  | [], log => [bumpSession (freshSession log) log]
  | s :: rest, log =>
      if s.invoiceNumber = log.invoiceNumber then bumpSession s log :: rest
      else s :: insertSessionLog rest log

/-- The `sessionsMap` of `getActiveSessions` after folding over all logs. -/
def sessionsMapOf (logs : List InventoryLog) : List InventorySessionSummary :=
  logs.foldl insertSessionLog []

/-- The sort order of `getActiveSessions` (`(a, b) => b.lastActivity - a.lastActivity`,
descending by last activity). -/
def sessionLe (a b : InventorySessionSummary) : Prop :=
  b.lastActivity ≤ a.lastActivity

instance : DecidableRel sessionLe := fun a b =>
  inferInstanceAs (Decidable (b.lastActivity ≤ a.lastActivity))

instance : IsTotal InventorySessionSummary sessionLe :=
  ⟨fun a b => le_total b.lastActivity a.lastActivity⟩

instance : IsTrans InventorySessionSummary sessionLe :=
  ⟨fun _ _ _ h₁ h₂ => le_trans h₂ h₁⟩

/-- The session summarizer `getActiveSessions` of the storage service:
group all logs by invoice number, then sort descending by last activity
(ECMAScript `sort` is stable, matched here by a stable insertion sort). -/
def getActiveSessions (logs : List InventoryLog) : List InventorySessionSummary :=
  List.insertionSort sessionLe (sessionsMapOf logs)

/-- All events of one invoice, oldest first
(`getInventoryLogs(invoiceNumber)` filters the global ledger). -/
def eventsFor (ledger : List InventoryLog) (inv : String) : List InventoryLog :=
  ledger.filter (fun log => log.invoiceNumber == inv)

/-- The ledger append path `handleAdd` of `CollectionView` followed by
`addInventoryLog`: reject an empty barcode, an empty / non-numeric quantity
(`none`), or a non-positive quantity, leaving the ledger untouched; otherwise
push one new event (with the freshly generated id and the current time) at the
end of the global ledger.  The second component reports the created event,
`none` standing for a reported rejection. -/
def handleAdd (ledger : List InventoryLog) (invoiceNumber userId barcode : String)
    (quantity : Option ℚ) (newId : String) (now : ℚ) :
    List InventoryLog × Option InventoryLog :=
  if barcode = "" then (ledger, none)
  else
    match quantity with
    | none => (ledger, none)
    | some q =>
        if q ≤ 0 then (ledger, none)
        else
          let newLog : InventoryLog :=
            { id := newId, invoiceNumber := invoiceNumber, userId := userId,
              barcode := barcode, quantity := q, timestamp := now }
          (ledger ++ [newLog], some newLog)

/-- The per-invoice invoice-item store: an insertion-ordered map from invoice
number to that invoice's item list (the JSON object under the `INVOICE` key). -/
abbrev InvoiceStore := List (String × List InvoiceItem)

/-- `getInvoiceData(invoiceNumber)`: that invoice's items, `[]` when absent. -/
def getInvoiceData (store : InvoiceStore) (inv : String) : List InvoiceItem :=
  match store.find? (fun e => e.1 == inv) with
  | some e => e.2
  | none => []

/-- `allInvoices[invoiceNumber] = items`: replace the entry in place, or
append a new one when the key is absent. -/
def saveInvoiceData : InvoiceStore → String → List InvoiceItem → InvoiceStore
  | [], inv, items => [(inv, items)]
  | e :: rest, inv, items =>
      if e.1 = inv then (inv, items) :: rest
      else e :: saveInvoiceData rest inv items

/-- The `findIndex` predicate of `updateInvoiceItemQuantity` and
`updateInvoiceItemFactor`:
`(item.systemCode && item.systemCode === systemCode) ||
 (item.barcode && item.barcode === barcode)`. -/
def storageMatch (systemCode barcode : String) (item : InvoiceItem) : Bool :=
  (item.systemCode != "" && item.systemCode == systemCode) ||
  (item.barcode != "" && item.barcode == barcode)

/-- Apply `f` to the first list element satisfying `p` (the
`findIndex` / assign-at-index pair), `none` when no element matches. -/
def updateFirstWith (f : InvoiceItem → InvoiceItem) (p : InvoiceItem → Bool) :
    List InvoiceItem → Option (List InvoiceItem)
  | [] => none
  | x :: xs =>
      if p x then some (f x :: xs)
      else (updateFirstWith f p xs).map (fun ys => x :: ys)

/-- `updateInvoiceItemQuantity` of the storage service: set the
`invoiceQuantity` of the first matching item of that invoice and save; do
nothing at all when no item matches. -/
def updateInvoiceItemQuantity (store : InvoiceStore)
    (inv systemCode barcode : String) (newQuantity : ℚ) : InvoiceStore :=
  match updateFirstWith (fun it => { it with invoiceQuantity := newQuantity })
      (storageMatch systemCode barcode) (getInvoiceData store inv) with
  | some items => saveInvoiceData store inv items
  | none => store

/-- `updateInvoiceItemFactor` of the storage service: set the
`conversionFactor` of the first matching item of that invoice and save; do
nothing at all when no item matches. -/
def updateInvoiceItemFactor (store : InvoiceStore)
    (inv systemCode barcode : String) (newFactor : ℚ) : InvoiceStore :=
  match updateFirstWith (fun it => { it with conversionFactor := some newFactor })
      (storageMatch systemCode barcode) (getInvoiceData store inv) with
  | some items => saveInvoiceData store inv items
  | none => store

/-- The display-value normalization of `ReportView` (`'-'` stands for an
absent code). -/
def normalizeCode (v : String) : String :=
  if v = "-" then "" else v

/-- `handleQuantityUpdate` of `ReportView` acting on the store: reject a
non-numeric (`none`) or negative new quantity with no state change, otherwise
delegate to `updateInvoiceItemQuantity` on the normalized codes. -/
def handleQuantityUpdate (store : InvoiceStore) (inv : String)
    (itemSystemCode itemBarcode : String) (newQuantity : Option ℚ) : InvoiceStore :=
  match newQuantity with
  | none => store
  | some q =>
      if q < 0 then store
      else updateInvoiceItemQuantity store inv (normalizeCode itemSystemCode)
        (normalizeCode itemBarcode) q

/-- `handleFactorUpdate` of `ReportView` acting on the store: reject a
non-numeric (`none`) or non-positive new factor with no state change,
otherwise delegate to `updateInvoiceItemFactor` on the normalized codes. -/
def handleFactorUpdate (store : InvoiceStore) (inv : String)
    (itemSystemCode itemBarcode : String) (newFactor : Option ℚ) : InvoiceStore :=
  match newFactor with
  | none => store
  | some q =>
      if q ≤ 0 then store
      else updateInvoiceItemFactor store inv (normalizeCode itemSystemCode)
        (normalizeCode itemBarcode) q

/-!
Specification-side definitions: statements of the resolution and grouping
rules in the form the specification describes them, to be compared with the
embedded implementation.
-/

/-- The resolution rule exactly as the specification states it: tier 1 when
the item barcode is non-empty and present in the scan totals; tier 2 exactly
when tier 1 found nothing and the systemCode is set, summing the scan totals
over the barcodes of every catalog entry with that systemCode; otherwise 0. -/
def claimResolve (counts : List (String × ℚ)) (products : List Product)
    (item : InvoiceItem) : ℚ :=
  if item.barcode ≠ "" ∧ lookupQ counts item.barcode ≠ none then
    (lookupQ counts item.barcode).getD 0
  else if item.systemCode ≠ "" then
    ((products.filter (fun p => p.systemCode == item.systemCode)).map
      (fun p => (lookupQ counts p.barcode).getD 0)).sum
  else 0

/-- The resolution rule the implementation actually follows: tier 1 when the
item barcode is non-empty and present; tier 2 exactly when the item barcode
is empty and the systemCode non-empty, consulting only the first catalog
entry whose systemCode matches (and only its barcode, when non-empty);
otherwise 0. -/
def amendedResolve (counts : List (String × ℚ)) (products : List Product)
    (item : InvoiceItem) : ℚ :=
  if item.barcode ≠ "" then (lookupQ counts item.barcode).getD 0
  else if item.systemCode ≠ "" then
    match products.find? (fun p => p.systemCode == item.systemCode) with
    | some p => if p.barcode ≠ "" then (lookupQ counts p.barcode).getD 0 else 0
    | none => 0
  else 0

/-- The edit-target predicate as the frame claim words it: plain equality of
systemCode or of barcode, with no non-emptiness requirement. -/
def claimEditMatch (systemCode barcode : String) (item : InvoiceItem) : Bool :=
  item.systemCode == systemCode || item.barcode == barcode

/-- The expected summary of one invoice group, computed directly from that
invoice's logs. -/
def specSummary (n : String) (g : List InventoryLog) : InventorySessionSummary :=
  { invoiceNumber := n,
    lastActivity := maxTs g,
    totalItemsScanned := g.length,
    usersInvolved := dedupFirst (g.map (fun l => l.userId)) }

/-- Lookup of the session entry keyed by one invoice number. -/
def entryFor (m : List InventorySessionSummary) (n : String) :
    Option InventorySessionSummary :=
  m.find? (fun s => s.invoiceNumber == n)

/-- Invariant of the `sessionsMap` fold: after processing the logs `pre`, the
entries are keyed by the distinct invoice numbers of `pre` in first-appearance
order, and the entry of every invoice number is the direct summary of its
group. -/
def GoodSessions (pre : List InventoryLog) (m : List InventorySessionSummary) : Prop :=
  m.map (fun s => s.invoiceNumber) = dedupFirst (pre.map (fun l => l.invoiceNumber)) ∧
  ∀ n, entryFor m n =
    (if (pre.filter (fun l => l.invoiceNumber == n)).isEmpty then none
     else some (specSummary n (pre.filter (fun l => l.invoiceNumber == n))))

/-!
Concrete inputs used by counterexamples and witnesses.
-/

/-- Two invoice items carrying the same barcode. -/
def dupBarcodeItems : List InvoiceItem :=
  [⟨"b", "", "item A", 1, some 1⟩, ⟨"b", "", "item B", 1, some 1⟩]

/-- A single scan of five units of that barcode. -/
def dupBarcodeLogs : List InventoryLog :=
  [⟨"id1", "N", "u", "b", 5, 100⟩]

/-- Two invoice items without barcodes sharing one systemCode. -/
def dupSystemCodeItems : List InvoiceItem :=
  [⟨"", "s", "item A", 1, some 1⟩, ⟨"", "s", "item B", 1, some 1⟩]

/-- A catalog with one entry for that systemCode. -/
def dupSystemCodeCatalog : List Product :=
  [⟨"b", "s", "product"⟩]

/-- An invoice item with no barcode whose systemCode has two catalog entries. -/
def twoEntryItem : InvoiceItem := ⟨"", "s", "item", 1, some 1⟩

/-- Scans of both catalog barcodes of that systemCode. -/
def twoEntryLogs : List InventoryLog :=
  [⟨"i1", "N", "u", "b1", 2, 100⟩, ⟨"i2", "N", "u", "b2", 3, 100⟩]

/-- The two catalog entries sharing the systemCode. -/
def twoEntryCatalog : List Product :=
  [⟨"b1", "s", "product 1"⟩, ⟨"b2", "s", "product 2"⟩]

/-- A scan of barcode 999 matching no invoice item and no catalog entry. -/
def unknownScanLogs : List InventoryLog :=
  [⟨"id9", "N", "u", "999", 3, 100⟩]

/-- A store with one invoice holding an item with an empty systemCode before
an item with a non-empty one. -/
def frameDemoStore : InvoiceStore :=
  [("N", [⟨"b1", "", "item A", 1, some 1⟩, ⟨"b2", "s", "item B", 1, some 1⟩])]

/-- The session-summary example logs: invoice 001 at timestamps 100, 150
(user u1) and 200 (user u2). -/
def sessionDemoLogs : List InventoryLog :=
  [⟨"a", "001", "u1", "b", 1, 100⟩, ⟨"b", "001", "u1", "b", 1, 150⟩,
   ⟨"c", "001", "u2", "b", 1, 200⟩]


/-- Inputs of the direct-match example: one invoice item with barcode 123
expecting ten units, factor one. -/
def directMatchItems : List InvoiceItem := [⟨"123", "", "widget", 10, some 1⟩]

/-- Scans of six and four units of barcode 123. -/
def directMatchLogs : List InventoryLog :=
  [⟨"i1", "N", "u", "123", 6, 1⟩, ⟨"i2", "N", "u", "123", 4, 2⟩]

/-- The row the aggregator emits for the direct-match example. -/
def directMatchRow : ReportItem :=
  ⟨"-", "123", "widget", 10, 1, 10, 10, 0, ReportStatus.MATCH⟩

/-- Constructor shorthand for one ledger event. -/
def mkLog (newId inv user bc : String) (x now : ℚ) : InventoryLog :=
  ⟨newId, inv, user, bc, x, now⟩

/-- `Array.prototype.findIndex` over the invoice items: the index of the
first element satisfying `p`, `none` standing for `-1`. -/
def findIndex (p : InvoiceItem → Bool) : List InvoiceItem → Option ℕ
  | [] => none
  | x :: xs => if p x then some 0 else (findIndex p xs).map (fun i => i + 1)

/-!
Theorems.
-/

/-- C9: the aggregator is deterministic (two runs on the same inputs yield
identical output) and total (it always returns a complete result, with one
row per invoice item). -/
theorem aggregator_deterministic_and_total (items : List InvoiceItem)
    (logs : List InventoryLog) (products : List Product) :
    reportData items logs products = reportData items logs products ∧
    (reportData items logs products).rows.length = items.length :=
  ⟨rfl, by simp [reportData]⟩

/-- C4: for every row the aggregator emits, the status is fully determined by
the sign of the difference, the difference is counted minus converted, and the
converted quantity is the invoice quantity times the (emitted) conversion
factor. -/
theorem row_status_determined_by_difference (items : List InvoiceItem)
    (logs : List InventoryLog) (products : List Product) (row : ReportItem)
    (hrow : row ∈ (reportData items logs products).rows) :
    (row.status = ReportStatus.MISSING ↔ row.difference < 0) ∧
    (row.status = ReportStatus.SURPLUS ↔ 0 < row.difference) ∧
    (row.status = ReportStatus.MATCH ↔ row.difference = 0) ∧
    row.difference = row.countedQuantity - row.convertedQuantity ∧
    row.convertedQuantity = row.invoiceQuantity * row.conversionFactor := by
  simp only [reportData, List.mem_map] at hrow
  obtain ⟨item, -, rfl⟩ := hrow
  simp only [reportRowOf, statusOf]
  rcases lt_trichotomy
      ((resolveCounted (scanCountsOf logs) products item).1 -
        item.invoiceQuantity * conversionFactorOf item) 0 with h | h | h
  · simp [h, h.ne, not_lt.mpr h.le]
  · simp [h]
  · simp [h, h.ne.symm, not_lt.mpr h.le]

/-- Witness for C4 at the direct-match example row (barcode 123, ten expected,
six plus four scanned, difference zero, status MATCH). -/
theorem row_status_determined_by_difference_witness :
    (directMatchRow.status = ReportStatus.MISSING ↔ directMatchRow.difference < 0) ∧
    (directMatchRow.status = ReportStatus.SURPLUS ↔ 0 < directMatchRow.difference) ∧
    (directMatchRow.status = ReportStatus.MATCH ↔ directMatchRow.difference = 0) ∧
    directMatchRow.difference = directMatchRow.countedQuantity - directMatchRow.convertedQuantity ∧
    directMatchRow.convertedQuantity = directMatchRow.invoiceQuantity * directMatchRow.conversionFactor :=
  row_status_determined_by_difference directMatchItems directMatchLogs [] directMatchRow
    (by simp +decide [reportData, directMatchItems, directMatchLogs, directMatchRow, scanCountsOf,
      bumpCount, reportRowOf, resolveCounted, lookupQ, conversionFactorOf, statusOf] <;> norm_num)

/-- C1 (the code-observed behavior): on two invoice items carrying the same
barcode and a single scan of five units, the aggregator counts the five units
in both rows, so the counted mass of the report is ten while only five units
were scanned — conservation fails. -/
theorem conservation_fails_on_repeated_barcode :
    ((reportData dupBarcodeItems dupBarcodeLogs []).rows.map (fun r => r.countedQuantity)).sum +
      ((reportData dupBarcodeItems dupBarcodeLogs []).extras.map (fun e => e.countedQuantity)).sum = 10 ∧
    (dupBarcodeLogs.map (fun l => l.quantity)).sum = 5 ∧
    ((10 : ℚ) ≠ 5) := by
  refine ⟨?_, ?_, by norm_num⟩ <;>
    simp +decide [reportData, dupBarcodeItems, dupBarcodeLogs, scanCountsOf, bumpCount,
      reportRowOf, resolveCounted, lookupQ, conversionFactorOf, consumedBarcodes,
      matchedBarcodeOf] <;> norm_num

/-- C3 (the code-observed behavior): consumed barcodes are not removed from
the shared pool: with two invoice items resolving to the same systemCode and
five scanned units, both rows report five counted units instead of the second
seeing a depleted pool. -/
theorem depletion_fails_on_repeated_systemCode :
    (reportData dupSystemCodeItems dupBarcodeLogs dupSystemCodeCatalog).rows.map
        (fun r => r.countedQuantity) = [5, 5] ∧
    ((5 : ℚ) ≠ 0) := by
  refine ⟨?_, by norm_num⟩
  simp +decide [reportData, dupSystemCodeItems, dupBarcodeLogs, dupSystemCodeCatalog,
    scanCountsOf, bumpCount, reportRowOf, resolveCounted, lookupQ, conversionFactorOf]

/-- C2 counterexample: for an item with no barcode whose systemCode has two
catalog entries with scanned barcodes (2 and 3 units), the claimed resolution
sums both (5) while the aggregator consults only the first catalog entry (2). -/
theorem resolution_counterexample :
    (reportData [twoEntryItem] twoEntryLogs twoEntryCatalog).rows.map
        (fun r => r.countedQuantity) = [2] ∧
    claimResolve (scanCountsOf twoEntryLogs) twoEntryCatalog twoEntryItem = 5 ∧
    ((2 : ℚ) ≠ 5) := by
  refine ⟨?_, ?_, by norm_num⟩
  · simp +decide [reportData, twoEntryItem, twoEntryLogs, twoEntryCatalog, scanCountsOf,
      bumpCount, reportRowOf, resolveCounted, lookupQ, conversionFactorOf]
  · simp +decide [claimResolve, scanCountsOf, twoEntryLogs, twoEntryCatalog, twoEntryItem,
      bumpCount, lookupQ] <;> norm_num

/-- C5 counterexample: the unmatched scan of barcode 999 surfaces as an extra
whose name is the literal marker of the source, which is not the string
`unknown` the claim promises. -/
theorem extras_marker_counterexample :
    (reportData [] unknownScanLogs []).extras =
      [⟨"999", "-", "Não Cadastrado / Desconhecido", 3⟩] ∧
    ("Não Cadastrado / Desconhecido" ≠ "unknown") := by
  constructor
  · simp +decide [reportData, unknownScanLogs, scanCountsOf, bumpCount, consumedBarcodes,
      extraOf]
  · decide

/-- C10 counterexample: with the edit target systemCode empty and barcode b2,
the first item whose systemCode equals the given one (plain equality, as the
claim words it) sits at index 0, yet the store update modifies the item at
index 1 — the claimed frame is violated. -/
theorem edit_frame_counterexample :
    ((getInvoiceData frameDemoStore "N").findIdx? (claimEditMatch "" "b2") = some 0) ∧
    ((getInvoiceData (updateInvoiceItemQuantity frameDemoStore "N" "" "b2" 5) "N")[1]? ≠
      (getInvoiceData frameDemoStore "N")[1]?) := by
  constructor
  · simp +decide [getInvoiceData, frameDemoStore, claimEditMatch, List.findIdx?]
  · simp +decide [getInvoiceData, frameDemoStore, updateInvoiceItemQuantity, updateFirstWith,
      storageMatch, saveInvoiceData]

/-- C7: appending a scan with an empty barcode or a non-positive (or
non-numeric) quantity creates no event and leaves the ledger unchanged,
reporting the rejection; a valid append creates exactly one new event with
the generated id and current timestamp at the end of that invoice's sequence,
leaves every other invoice's sequence unchanged, and keeps ids unique. -/
theorem ledger_append_spec (ledger : List InventoryLog)
    (inv user bc : String) (q : Option ℚ) (newId : String) (now : ℚ) :
    ((bc = "" ∨ q = none ∨ ∃ x ≤ (0:ℚ), q = some x) →
      handleAdd ledger inv user bc q newId now = (ledger, none)) ∧
    (∀ x : ℚ, q = some x → 0 < x → bc ≠ "" →
      handleAdd ledger inv user bc q newId now =
        (ledger ++ [mkLog newId inv user bc x now], some (mkLog newId inv user bc x now)) ∧
      eventsFor (ledger ++ [mkLog newId inv user bc x now]) inv =
        eventsFor ledger inv ++ [mkLog newId inv user bc x now] ∧
      (∀ inv2, inv2 ≠ inv →
        eventsFor (ledger ++ [mkLog newId inv user bc x now]) inv2 = eventsFor ledger inv2) ∧
      ((ledger.map (fun l => l.id)).Nodup → newId ∉ ledger.map (fun l => l.id) →
        ((ledger ++ [mkLog newId inv user bc x now]).map (fun l => l.id)).Nodup)) := by
  constructor
  · rintro (rfl | rfl | ⟨x, hx, rfl⟩)
    · simp [handleAdd]
    · unfold handleAdd
      split <;> rfl
    · unfold handleAdd
      split
      · rfl
      · simp [hx]
  · rintro x rfl hx hbc
    refine ⟨by simp [handleAdd, hbc, not_le.mpr hx, mkLog], ?_, ?_, ?_⟩
    · simp [eventsFor, List.filter_append, mkLog]
    · intro inv2 h
      simp [eventsFor, List.filter_append, mkLog, Ne.symm h]
    · intro h1 h2
      simp [List.nodup_append, h1, h2, mkLog]

/-- Witness for C7: a valid append of two units creates the event; the two
rejection examples (empty barcode, zero quantity) leave the empty ledger
unchanged. -/
theorem ledger_append_spec_witness :
    handleAdd [] "N" "u" "123" (some 2) "id1" 7 =
      ([mkLog "id1" "N" "u" "123" 2 7], some (mkLog "id1" "N" "u" "123" 2 7)) ∧
    handleAdd [] "N" "u" "" (some 5) "id2" 7 = ([], none) ∧
    handleAdd [] "N" "u" "123" (some 0) "id3" 7 = ([], none) :=
  ⟨((ledger_append_spec [] "N" "u" "123" (some 2) "id1" 7).2 2 rfl (by norm_num) (by decide)).1,
   (ledger_append_spec [] "N" "u" "" (some 5) "id2" 7).1 (Or.inl rfl),
   (ledger_append_spec [] "N" "u" "123" (some 0) "id3" 7).1 (Or.inr (Or.inr ⟨0, le_refl 0, rfl⟩))⟩

/-- C8: an invoice-quantity edit is applied only when the new value is a
number at least zero, and a conversion-factor edit only when the new value is
a positive number; every other edit is rejected with no state change. -/
theorem edit_validation_spec (store : InvoiceStore) (inv sc bc : String) :
    (handleQuantityUpdate store inv sc bc none = store) ∧
    (∀ q : ℚ, q < 0 → handleQuantityUpdate store inv sc bc (some q) = store) ∧
    (∀ q : ℚ, 0 ≤ q → handleQuantityUpdate store inv sc bc (some q) =
      updateInvoiceItemQuantity store inv (normalizeCode sc) (normalizeCode bc) q) ∧
    (handleFactorUpdate store inv sc bc none = store) ∧
    (∀ q : ℚ, q ≤ 0 → handleFactorUpdate store inv sc bc (some q) = store) ∧
    (∀ q : ℚ, 0 < q → handleFactorUpdate store inv sc bc (some q) =
      updateInvoiceItemFactor store inv (normalizeCode sc) (normalizeCode bc) q) := by
  refine ⟨rfl, fun q hq => ?_, fun q hq => ?_, rfl, fun q hq => ?_, fun q hq => ?_⟩
  · simp [handleQuantityUpdate, hq]
  · simp [handleQuantityUpdate, not_lt.mpr hq]
  · simp [handleFactorUpdate, hq]
  · simp [handleFactorUpdate, not_le.mpr hq]

/-- Witness for C8: a negative quantity edit and a zero factor edit leave the
demo store unchanged; a valid quantity edit delegates to the store update. -/
theorem edit_validation_spec_witness :
    handleQuantityUpdate frameDemoStore "N" "s" "b2" (some (-1)) = frameDemoStore ∧
    handleFactorUpdate frameDemoStore "N" "s" "b2" (some 0) = frameDemoStore ∧
    handleQuantityUpdate frameDemoStore "N" "s" "b2" (some 7) =
      updateInvoiceItemQuantity frameDemoStore "N" "s" "b2" 7 := by
  refine ⟨(edit_validation_spec frameDemoStore "N" "s" "b2").2.1 (-1) (by norm_num),
          (edit_validation_spec frameDemoStore "N" "s" "b2").2.2.2.2.1 0 (by norm_num),
          ?_⟩
  have h := (edit_validation_spec frameDemoStore "N" "s" "b2").2.2.1 7 (by norm_num)
  simpa [normalizeCode] using h

/-- The first component of the aggregator's inline resolution equals the
two-tier rule as amended: tier 1 on a non-empty, present item barcode; tier 2
exactly when the item barcode is empty and the systemCode non-empty,
consulting only the first matching catalog entry; otherwise zero. -/
theorem resolveCounted_eq_amendedResolve (counts : List (String × ℚ))
    (products : List Product) (item : InvoiceItem) :
    (resolveCounted counts products item).1 = amendedResolve counts products item := by
  unfold resolveCounted amendedResolve
  by_cases h1 : item.barcode = ""
  · simp only [h1, ne_eq, not_true_eq_false, if_false, ite_not]
    by_cases h2 : item.systemCode = ""
    · simp [h2]
    · simp only [h2, if_false, ite_not, if_true]
      cases hf : products.find? (fun p => p.systemCode == item.systemCode) with
      | none => simp [hf]
      | some p =>
          by_cases h3 : p.barcode = ""
          · simp [hf, h3]
          · cases hl : lookupQ counts p.barcode <;> simp [hf, h3, hl]
  · cases hl : lookupQ counts item.barcode <;> simp [h1, hl]

/-- C2 (amended): the counted quantity of the i-th emitted row is the
amended two-tier resolution of the i-th invoice item against the scan totals
and the catalog. -/
theorem resolution_two_tier_amended (items : List InvoiceItem)
    (logs : List InventoryLog) (products : List Product) :
    (reportData items logs products).rows.map (fun r => r.countedQuantity) =
      items.map (amendedResolve (scanCountsOf logs) products) := by
  simp only [reportData, List.map_map]
  apply List.map_congr_left
  intro item hmem
  simp [Function.comp, reportRowOf, resolveCounted_eq_amendedResolve]

/-- Lookup on a cons cell of the association list. -/
theorem lookupQ_cons (k : String) (v : ℚ) (m : List (String × ℚ)) (b : String) :
    lookupQ ((k, v) :: m) b = if k = b then some v else lookupQ m b := by
  by_cases h : k = b <;> simp [lookupQ, List.find?_cons, h]

/-- A lookup succeeds exactly when the key is among the keys. -/
theorem lookupQ_isSome_iff (m : List (String × ℚ)) (b : String) :
    (lookupQ m b).isSome ↔ b ∈ keysOf m := by
  induction m with
  | nil => simp [lookupQ, keysOf]
  | cons e rest ih =>
      obtain ⟨k, v⟩ := e
      by_cases h : k = b <;> simp [lookupQ_cons, keysOf, h, ih]
      · exact fun hmem => (h hmem.symm).elim

/-- Bumping a key adds the quantity to its (defaulted) entry. -/
theorem lookupQ_bumpCount_same (m : List (String × ℚ)) (b : String) (q : ℚ) :
    lookupQ (bumpCount m b q) b = some ((lookupQ m b).getD 0 + q) := by
  induction m with
  | nil => simp [bumpCount, lookupQ_cons, lookupQ]
  | cons e rest ih =>
      obtain ⟨k, v⟩ := e
      by_cases h : k = b
      · subst h
        simp [bumpCount, lookupQ_cons]
      · simp [bumpCount, h, lookupQ_cons, ih]

/-- Bumping one key leaves every other lookup unchanged. -/
theorem lookupQ_bumpCount_other (m : List (String × ℚ)) (b b2 : String) (q : ℚ)
    (h : b ≠ b2) :
    lookupQ (bumpCount m b q) b2 = lookupQ m b2 := by
  induction m with
  | nil => simp [bumpCount, lookupQ_cons, lookupQ, h]
  | cons e rest ih =>
      obtain ⟨k, v⟩ := e
      by_cases hk : k = b
      · subst hk
        simp [bumpCount, lookupQ_cons, h]
      · simp [bumpCount, hk, lookupQ_cons, ih]

/-- Bumping preserves the keys, appending the new key when absent. -/
theorem keysOf_bumpCount (m : List (String × ℚ)) (b : String) (q : ℚ) :
    keysOf (bumpCount m b q) = if b ∈ keysOf m then keysOf m else keysOf m ++ [b] := by
  induction m with
  | nil => simp [bumpCount, keysOf]
  | cons e rest ih =>
      obtain ⟨k, v⟩ := e
      by_cases h : k = b
      · subst h
        simp [bumpCount, keysOf]
      · have hmem : b ∈ keysOf ((k, v) :: rest) ↔ b ∈ keysOf rest := by
          simp [keysOf, Ne.symm h]
        have hL : keysOf (bumpCount ((k, v) :: rest) b q) = k :: keysOf (bumpCount rest b q) := by
          simp [bumpCount, h, keysOf]
        rw [hL, ih]
        by_cases h2 : b ∈ keysOf rest
        · rw [if_pos h2, if_pos (hmem.mpr h2)]
          rfl
        · rw [if_neg h2, if_neg (fun hx => h2 (hmem.mp hx))]
          simp [keysOf]

/-- Key membership after a bump. -/
theorem mem_keysOf_bumpCount (m : List (String × ℚ)) (b : String) (q : ℚ) (b2 : String) :
    b2 ∈ keysOf (bumpCount m b q) ↔ b2 ∈ keysOf m ∨ b2 = b := by
  rw [keysOf_bumpCount]
  by_cases h : b ∈ keysOf m
  · rw [if_pos h]
    constructor
    · exact Or.inl
    · rintro (hh | rfl)
      · exact hh
      · exact h
  · rw [if_neg h]
    simp [List.mem_append]

/-- Bumping preserves distinctness of the keys. -/
theorem keysOf_bumpCount_nodup (m : List (String × ℚ)) (b : String) (q : ℚ)
    (h : (keysOf m).Nodup) : (keysOf (bumpCount m b q)).Nodup := by
  rw [keysOf_bumpCount]
  by_cases hb : b ∈ keysOf m
  · simpa [hb] using h
  · rw [if_neg hb]
    simp [List.nodup_append, h, hb]

/-- The per-barcode total over a cons of logs. -/
theorem sumFor_cons (log : InventoryLog) (rest : List InventoryLog) (b : String) :
    sumFor (log :: rest) b =
      (if log.barcode = b then log.quantity else 0) + sumFor rest b := by
  by_cases h : log.barcode = b <;> simp [sumFor, h]

/-- Characterization of the scan-totals fold over an arbitrary accumulator. -/
theorem lookupQ_scanFold (logs : List InventoryLog) :
    ∀ (m : List (String × ℚ)) (b : String),
      lookupQ (logs.foldl (fun m log => bumpCount m log.barcode log.quantity) m) b =
        if b ∈ keysOf m ∨ b ∈ logs.map (fun l => l.barcode) then
          some ((lookupQ m b).getD 0 + sumFor logs b)
        else none := by
  induction logs with
  | nil =>
      intro m b
      by_cases h : b ∈ keysOf m
      · have hs : (lookupQ m b).isSome := (lookupQ_isSome_iff m b).mpr h
        obtain ⟨v, hv⟩ := Option.isSome_iff_exists.mp hs
        simp [h, hv, sumFor]
      · have hn : lookupQ m b = none := by
          cases hl : lookupQ m b with
          | none => rfl
          | some v => exact absurd ((lookupQ_isSome_iff m b).mp (by simp [hl])) h
        simp [h, hn, sumFor]
  | cons log rest ih =>
      intro m b
      simp only [List.foldl_cons]
      rw [ih (bumpCount m log.barcode log.quantity) b]
      by_cases hb : b = log.barcode
      · subst hb
        have hk : log.barcode ∈ keysOf (bumpCount m log.barcode log.quantity) := by
          rw [mem_keysOf_bumpCount]
          right; rfl
        rw [if_pos (Or.inl hk), if_pos (by right; simp)]
        rw [lookupQ_bumpCount_same]
        simp [sumFor_cons]
        ring
      · have hk : b ∈ keysOf (bumpCount m log.barcode log.quantity) ↔ b ∈ keysOf m := by
          rw [mem_keysOf_bumpCount]
          simp [hb]
        rw [lookupQ_bumpCount_other m log.barcode b log.quantity (fun hh => hb hh.symm)]
        have hmap : b ∈ (log :: rest).map (fun l => l.barcode) ↔
            b ∈ rest.map (fun l => l.barcode) := by
          simp [hb]
        have hsum : sumFor (log :: rest) b = sumFor rest b := by
          rw [sumFor_cons, if_neg (fun hh => hb hh.symm), zero_add]
        rw [hsum]
        by_cases hcond : b ∈ keysOf m ∨ b ∈ rest.map (fun l => l.barcode)
        · rw [if_pos (by rcases hcond with h1 | h1; exact Or.inl (hk.mpr h1); exact Or.inr h1),
            if_pos (by rcases hcond with h1 | h1; exact Or.inl h1; exact Or.inr (hmap.mpr h1))]
        · rw [if_neg (by rintro (h1 | h1); exact hcond (Or.inl (hk.mp h1)); exact hcond (Or.inr h1)),
            if_neg (by rintro (h1 | h1); exact hcond (Or.inl h1); exact hcond (Or.inr (hmap.mp h1)))]

/-- The scan totals map each scanned barcode to its total quantity and hold
no other key. -/
theorem lookupQ_scanCountsOf (logs : List InventoryLog) (b : String) :
    lookupQ (scanCountsOf logs) b =
      if b ∈ logs.map (fun l => l.barcode) then some (sumFor logs b) else none := by
  have h := lookupQ_scanFold logs [] b
  simpa [scanCountsOf, keysOf, lookupQ] using h

/-- The scan totals hold each barcode at most once. -/
theorem keysOf_scanCountsOf_nodup (logs : List InventoryLog) :
    (keysOf (scanCountsOf logs)).Nodup := by
  suffices h : ∀ m : List (String × ℚ), (keysOf m).Nodup →
      (keysOf (logs.foldl (fun m log => bumpCount m log.barcode log.quantity) m)).Nodup by
    exact h [] (by simp [keysOf])
  induction logs with
  | nil => intro m hm; exact hm
  | cons log rest ih =>
      intro m hm
      exact ih _ (keysOf_bumpCount_nodup _ _ _ hm)

/-- Keys of a cons cell. -/
theorem keysOf_cons (e : String × ℚ) (m : List (String × ℚ)) :
    keysOf (e :: m) = e.1 :: keysOf m := rfl

/-- With distinct keys, every entry is returned by lookup. -/
theorem lookupQ_of_mem_nodup (m : List (String × ℚ)) (b : String) (v : ℚ)
    (hnd : (keysOf m).Nodup) (hm : (b, v) ∈ m) :
    lookupQ m b = some v := by
  induction m with
  | nil => cases hm
  | cons e rest ih =>
      obtain ⟨k, w⟩ := e
      rw [keysOf_cons] at hnd
      obtain ⟨hk1, hk2⟩ := List.nodup_cons.1 hnd
      rcases List.mem_cons.1 hm with heq | hmem
      · cases heq
        simp [lookupQ_cons]
      · have hk : k ≠ b := by
          intro hkb
          subst hkb
          exact hk1 (List.mem_map.2 ⟨(k, v), hmem, rfl⟩)
        rw [lookupQ_cons, if_neg hk]
        exact ih hk2 hmem

/-- An extra line carries the barcode of its entry. -/
theorem extraOf_barcode (products : List Product) (e : String × ℚ) :
    (extraOf products e).barcode = e.1 := by
  unfold extraOf
  split <;> rfl

/-- An extra line carries the counted quantity of its entry. -/
theorem extraOf_counted (products : List Product) (e : String × ℚ) :
    (extraOf products e).countedQuantity = e.2 := by
  unfold extraOf
  split <;> rfl

/-- The name of an extra line: the catalog name when the barcode is known,
else the literal unknown-marker of the source. -/
theorem extraOf_name (products : List Product) (e : String × ℚ) :
    (extraOf products e).name =
      (match products.find? (fun p => p.barcode == e.1) with
       | some p => p.name
       | none => "Não Cadastrado / Desconhecido") := by
  unfold extraOf
  split <;> simp_all

/-- C5 (amended): every scanned barcode never consumed by a row appears
exactly once in the extras, with the total scanned quantity and with the
catalog name when known, else the literal marker
`Não Cadastrado / Desconhecido`. -/
theorem extras_complete_amended (items : List InvoiceItem) (logs : List InventoryLog)
    (products : List Product) :
    ((reportData items logs products).extras.map (fun e => e.barcode)).Nodup ∧
    (∀ b : String, b ∈ (reportData items logs products).extras.map (fun e => e.barcode) ↔
      (b ∈ logs.map (fun l => l.barcode) ∧
        b ∉ consumedBarcodes (scanCountsOf logs) products items)) ∧
    (∀ e ∈ (reportData items logs products).extras,
      e.countedQuantity = sumFor logs e.barcode ∧
      e.name = (match products.find? (fun p => p.barcode == e.barcode) with
                | some p => p.name
                | none => "Não Cadastrado / Desconhecido")) := by
  have hext : (reportData items logs products).extras =
      ((scanCountsOf logs).filter
        (fun e => ! (consumedBarcodes (scanCountsOf logs) products items).contains e.1)).map
        (extraOf products) := rfl
  have hbar : (reportData items logs products).extras.map (fun e => e.barcode) =
      ((scanCountsOf logs).filter
        (fun e => ! (consumedBarcodes (scanCountsOf logs) products items).contains e.1)).map
        (fun e => e.1) := by
    rw [hext, List.map_map]
    exact List.map_congr_left (fun e _ => extraOf_barcode products e)
  refine ⟨?_, ?_, ?_⟩
  · rw [hbar]
    have hnd := keysOf_scanCountsOf_nodup logs
    simp only [keysOf] at hnd
    exact hnd.sublist ((List.filter_sublist _).map (fun e : String × ℚ => e.1))
  · intro b
    rw [hbar]
    constructor
    · intro hmemb
      obtain ⟨e, hef, hbe⟩ := List.mem_map.1 hmemb
      obtain ⟨b2, v⟩ := e
      obtain ⟨hin_counts, hcons⟩ := List.mem_filter.1 hef
      subst hbe
      have hkey : b2 ∈ keysOf (scanCountsOf logs) :=
        List.mem_map.2 ⟨(b2, v), hin_counts, rfl⟩
      have hsome : (lookupQ (scanCountsOf logs) b2).isSome :=
        (lookupQ_isSome_iff _ _).mpr hkey
      rw [lookupQ_scanCountsOf] at hsome
      by_cases hin : b2 ∈ logs.map (fun l => l.barcode)
      · exact ⟨hin, by simpa using hcons⟩
      · rw [if_neg hin] at hsome
        simp at hsome
    · rintro ⟨hin, hcons⟩
      have hlook : lookupQ (scanCountsOf logs) b = some (sumFor logs b) := by
        rw [lookupQ_scanCountsOf, if_pos hin]
      obtain ⟨e, hfind, hv⟩ := Option.map_eq_some'.1 hlook
      have hmem : e ∈ scanCountsOf logs := List.mem_of_find?_eq_some hfind
      have hpred : e.1 = b := by
        have := List.find?_some hfind
        simpa using this
      refine List.mem_map.2 ⟨e, List.mem_filter.2 ⟨hmem, ?_⟩, hpred⟩
      rw [hpred]
      simpa using hcons
  · intro e he
    rw [hext] at he
    obtain ⟨pair, hpf, hpe⟩ := List.mem_map.1 he
    obtain ⟨b2, v2⟩ := pair
    obtain ⟨hmem, hcons⟩ := List.mem_filter.1 hpf
    subst hpe
    have hl : lookupQ (scanCountsOf logs) b2 = some v2 :=
      lookupQ_of_mem_nodup _ _ _ (keysOf_scanCountsOf_nodup logs) hmem
    rw [lookupQ_scanCountsOf] at hl
    by_cases hin : b2 ∈ logs.map (fun l => l.barcode)
    · rw [if_pos hin] at hl
      have hv : v2 = sumFor logs b2 := by
        injection hl with h
        exact h.symm
      constructor
      · rw [extraOf_counted, extraOf_barcode]
        exact hv
      · rw [extraOf_name, extraOf_barcode]
    · rw [if_neg hin] at hl
      cases hl

/-- Witness for C5 at the barcode-999 example extra. -/
theorem extras_complete_amended_witness :
    (⟨"999", "-", "Não Cadastrado / Desconhecido", 3⟩ : ExtraItem).countedQuantity =
      sumFor unknownScanLogs "999" ∧
    (⟨"999", "-", "Não Cadastrado / Desconhecido", 3⟩ : ExtraItem).name =
      (match ([] : List Product).find?
          (fun p => p.barcode == (⟨"999", "-", "Não Cadastrado / Desconhecido", 3⟩ : ExtraItem).barcode) with
       | some p => p.name
       | none => "Não Cadastrado / Desconhecido") :=
  (extras_complete_amended [] unknownScanLogs []).2.2
    ⟨"999", "-", "Não Cadastrado / Desconhecido", 3⟩
    (by simp +decide [reportData, unknownScanLogs, scanCountsOf, bumpCount, consumedBarcodes,
      extraOf])

/-- No matching element: the first-match update reports failure. -/
theorem updateFirstWith_none (f : InvoiceItem → InvoiceItem) (p : InvoiceItem → Bool)
    (l : List InvoiceItem) (h : findIndex p l = none) :
    updateFirstWith f p l = none := by
  induction l with
  | nil => rfl
  | cons x xs ih =>
      rw [findIndex] at h
      by_cases hp : p x
      · rw [if_pos hp] at h
        cases h
      · rw [if_neg hp] at h
        have h2 : findIndex p xs = none := by
          cases hx : findIndex p xs with
          | none => rfl
          | some i => rw [hx] at h; cases h
        simp [updateFirstWith, hp, ih h2]

/-- A match at index i: the first-match update rewrites exactly position i. -/
theorem updateFirstWith_some (f : InvoiceItem → InvoiceItem) (p : InvoiceItem → Bool)
    (l : List InvoiceItem) :
    ∀ i : ℕ, findIndex p l = some i →
      ∃ l2, updateFirstWith f p l = some l2 ∧
        (∀ j, j ≠ i → l2[j]? = l[j]?) ∧
        l2[i]? = (l[i]?).map f := by
  induction l with
  | nil => intro i h; cases h
  | cons x xs ih =>
      intro i h
      rw [findIndex] at h
      by_cases hp : p x
      · rw [if_pos hp] at h
        injection h with h0
        subst h0
        refine ⟨f x :: xs, by simp [updateFirstWith, hp], ?_, by simp⟩
        intro j hj
        cases j with
        | zero => exact absurd rfl hj
        | succ n => simp
      · rw [if_neg hp] at h
        obtain ⟨i2, h2, rfl⟩ := Option.map_eq_some'.1 h
        obtain ⟨l2, hupd, hfr, hat⟩ := ih i2 h2
        refine ⟨x :: l2, by simp [updateFirstWith, hp, hupd], ?_, by simpa using hat⟩
        intro j hj
        cases j with
        | zero => simp
        | succ n =>
            simp only [List.getElem?_cons_succ]
            exact hfr n (fun he => hj (by rw [he]))

/-- Invoice lookup on a cons cell of the store. -/
theorem getInvoiceData_cons (e : String × List InvoiceItem) (rest : InvoiceStore)
    (inv : String) :
    getInvoiceData (e :: rest) inv = if e.1 = inv then e.2 else getInvoiceData rest inv := by
  by_cases h : e.1 = inv <;> simp [getInvoiceData, List.find?_cons, h]

/-- Saving an invoice makes its items the stored ones. -/
theorem getInvoiceData_save_same (store : InvoiceStore) (inv : String)
    (items : List InvoiceItem) :
    getInvoiceData (saveInvoiceData store inv items) inv = items := by
  induction store with
  | nil => simp [saveInvoiceData, getInvoiceData_cons, getInvoiceData]
  | cons e rest ih =>
      by_cases h : e.1 = inv
      · simp [saveInvoiceData, h, getInvoiceData_cons]
      · simp [saveInvoiceData, h, getInvoiceData_cons, ih]

/-- Saving one invoice leaves every other invoice unchanged. -/
theorem getInvoiceData_save_other (store : InvoiceStore) (inv inv2 : String)
    (items : List InvoiceItem) (h : inv2 ≠ inv) :
    getInvoiceData (saveInvoiceData store inv items) inv2 = getInvoiceData store inv2 := by
  induction store with
  | nil => simp [saveInvoiceData, getInvoiceData_cons, getInvoiceData, Ne.symm h]
  | cons e rest ih =>
      by_cases he : e.1 = inv
      · rw [show saveInvoiceData (e :: rest) inv items = (inv, items) :: rest from by
          simp [saveInvoiceData, he]]
        rw [getInvoiceData_cons, getInvoiceData_cons]
        rw [if_neg (Ne.symm h), if_neg (by rw [he]; exact Ne.symm h)]
      · simp [saveInvoiceData, he, getInvoiceData_cons, ih]

/-- C10 (amended): a stored quantity (or factor) update touches at most the
first item whose systemCode is non-empty and equals the given systemCode or
whose barcode is non-empty and equals the given barcode, rewrites only the
one edited field at that position, leaves every other position and every
other invoice unchanged, and leaves the store entirely unchanged when no
item matches. -/
theorem update_frame_amended (store : InvoiceStore) (inv sc bc : String) (q : ℚ) :
    (findIndex (storageMatch sc bc) (getInvoiceData store inv) = none →
      updateInvoiceItemQuantity store inv sc bc q = store ∧
      updateInvoiceItemFactor store inv sc bc q = store) ∧
    (∀ i, findIndex (storageMatch sc bc) (getInvoiceData store inv) = some i →
      (∀ inv2, inv2 ≠ inv →
        getInvoiceData (updateInvoiceItemQuantity store inv sc bc q) inv2 =
          getInvoiceData store inv2 ∧
        getInvoiceData (updateInvoiceItemFactor store inv sc bc q) inv2 =
          getInvoiceData store inv2) ∧
      (∀ j, j ≠ i →
        (getInvoiceData (updateInvoiceItemQuantity store inv sc bc q) inv)[j]? =
          (getInvoiceData store inv)[j]? ∧
        (getInvoiceData (updateInvoiceItemFactor store inv sc bc q) inv)[j]? =
          (getInvoiceData store inv)[j]?) ∧
      (getInvoiceData (updateInvoiceItemQuantity store inv sc bc q) inv)[i]? =
        ((getInvoiceData store inv)[i]?).map (fun it => { it with invoiceQuantity := q }) ∧
      (getInvoiceData (updateInvoiceItemFactor store inv sc bc q) inv)[i]? =
        ((getInvoiceData store inv)[i]?).map (fun it => { it with conversionFactor := some q })) := by
  constructor
  · intro h
    constructor
    · unfold updateInvoiceItemQuantity
      rw [updateFirstWith_none _ _ _ h]
    · unfold updateInvoiceItemFactor
      rw [updateFirstWith_none _ _ _ h]
  · intro i h
    obtain ⟨l2, hupd2, hfr2, hat2⟩ :=
      updateFirstWith_some (fun it => { it with invoiceQuantity := q })
        (storageMatch sc bc) (getInvoiceData store inv) i h
    obtain ⟨l3, hupd3, hfr3, hat3⟩ :=
      updateFirstWith_some (fun it => { it with conversionFactor := some q })
        (storageMatch sc bc) (getInvoiceData store inv) i h
    have hq : updateInvoiceItemQuantity store inv sc bc q = saveInvoiceData store inv l2 := by
      unfold updateInvoiceItemQuantity
      rw [hupd2]
    have hf : updateInvoiceItemFactor store inv sc bc q = saveInvoiceData store inv l3 := by
      unfold updateInvoiceItemFactor
      rw [hupd3]
    refine ⟨?_, ?_, ?_, ?_⟩
    · intro inv2 h2
      rw [hq, hf]
      exact ⟨getInvoiceData_save_other _ _ _ _ h2, getInvoiceData_save_other _ _ _ _ h2⟩
    · intro j hj
      rw [hq, hf, getInvoiceData_save_same, getInvoiceData_save_same]
      exact ⟨hfr2 j hj, hfr3 j hj⟩
    · rw [hq, getInvoiceData_save_same]
      exact hat2
    · rw [hf, getInvoiceData_save_same]
      exact hat3

/-- Witness for C10 on the demo store: the update matches index 1, leaves
index 0 and the other invoice untouched. -/
theorem update_frame_amended_witness :
    (getInvoiceData (updateInvoiceItemQuantity frameDemoStore "N" "s" "zzz" 9) "N")[0]? =
      (getInvoiceData frameDemoStore "N")[0]? ∧
    (getInvoiceData (updateInvoiceItemQuantity frameDemoStore "N" "s" "zzz" 9) "N")[1]? =
      ((getInvoiceData frameDemoStore "N")[1]?).map (fun it => { it with invoiceQuantity := 9 }) ∧
    getInvoiceData (updateInvoiceItemQuantity frameDemoStore "N" "s" "zzz" 9) "M" =
      getInvoiceData frameDemoStore "M" := by
  have h := (update_frame_amended frameDemoStore "N" "s" "zzz" 9).2 1
    (by simp +decide [findIndex, getInvoiceData, frameDemoStore, storageMatch])
  exact ⟨(h.2.1 0 (by norm_num)).1, h.2.2.1, (h.1 "M" (by decide)).1⟩

/-- Membership through the dedup fold. -/
theorem foldl_pushUnique_mem (l : List String) :
    ∀ (acc : List String) (y : String),
      y ∈ l.foldl pushUnique acc ↔ y ∈ acc ∨ y ∈ l := by
  induction l with
  | nil => intro acc y; simp
  | cons x xs ih =>
      intro acc y
      rw [List.foldl_cons, ih]
      unfold pushUnique
      by_cases h : acc.contains x
      · rw [if_pos h]
        have hx : x ∈ acc := by simpa using h
        constructor
        · rintro (hy | hy)
          · exact Or.inl hy
          · exact Or.inr (List.mem_cons.2 (Or.inr hy))
        · rintro (hy | hy)
          · exact Or.inl hy
          · rcases List.mem_cons.1 hy with rfl | hy2
            · exact Or.inl hx
            · exact Or.inr hy2
      · rw [if_neg h]
        simp [List.mem_append, List.mem_cons]
        tauto

/-- Deduplication preserves membership. -/
theorem mem_dedupFirst (l : List String) (y : String) :
    y ∈ dedupFirst l ↔ y ∈ l := by
  unfold dedupFirst
  rw [foldl_pushUnique_mem]
  simp

/-- The dedup fold preserves distinctness of the accumulator. -/
theorem foldl_pushUnique_nodup (l : List String) :
    ∀ acc : List String, acc.Nodup → (l.foldl pushUnique acc).Nodup := by
  induction l with
  | nil => intro acc h; exact h
  | cons x xs ih =>
      intro acc h
      rw [List.foldl_cons]
      apply ih
      unfold pushUnique
      by_cases hx : acc.contains x
      · rwa [if_pos hx]
      · rw [if_neg hx]
        simp only [List.nodup_append, List.nodup_cons]
        refine ⟨h, by simp, ?_⟩
        intro a ha
        simp only [List.mem_singleton]
        intro hax
        rw [hax] at ha
        exact (by simpa using hx : x ∉ acc) ha

/-- A deduplicated list is duplicate-free. -/
theorem nodup_dedupFirst (l : List String) : (dedupFirst l).Nodup :=
  foldl_pushUnique_nodup l [] (by simp)

/-- Deduplication of a snoc is a dedup-push. -/
theorem dedupFirst_snoc (l : List String) (x : String) :
    dedupFirst (l ++ [x]) = pushUnique (dedupFirst l) x := by
  unfold dedupFirst
  rw [List.foldl_append]
  rfl

/-- Maximum timestamp of a non-empty snoc. -/
theorem maxTs_snoc (g : List InventoryLog) (x : InventoryLog) (hg : g ≠ []) :
    maxTs (g ++ [x]) = max (maxTs g) x.timestamp := by
  obtain ⟨l, ls, rfl⟩ : ∃ l ls, g = l :: ls := by
    cases g with
    | nil => exact absurd rfl hg
    | cons l ls => exact ⟨l, ls, rfl⟩
  simp [maxTs, List.foldl_append]

/-- A session bump keeps the invoice number. -/
theorem bumpSession_invoiceNumber (s : InventorySessionSummary) (log : InventoryLog) :
    (bumpSession s log).invoiceNumber = s.invoiceNumber := rfl

/-- Inserting a log keeps the session keys, appending the invoice number
when it is new. -/
theorem insertSessionLog_keys (m : List InventorySessionSummary) (log : InventoryLog) :
    (insertSessionLog m log).map (fun s => s.invoiceNumber) =
      if log.invoiceNumber ∈ m.map (fun s => s.invoiceNumber) then
        m.map (fun s => s.invoiceNumber)
      else m.map (fun s => s.invoiceNumber) ++ [log.invoiceNumber] := by
  induction m with
  | nil => simp [insertSessionLog, bumpSession, freshSession]
  | cons s rest ih =>
      by_cases h : s.invoiceNumber = log.invoiceNumber
      · rw [show insertSessionLog (s :: rest) log = bumpSession s log :: rest from by
          simp [insertSessionLog, h]]
        simp [bumpSession_invoiceNumber, h]
      · rw [show insertSessionLog (s :: rest) log = s :: insertSessionLog rest log from by
          simp [insertSessionLog, h]]
        simp only [List.map_cons, ih]
        have hmem : log.invoiceNumber ∈ s.invoiceNumber :: rest.map (fun s => s.invoiceNumber) ↔
            log.invoiceNumber ∈ rest.map (fun s => s.invoiceNumber) := by
          simp [Ne.symm h]
        by_cases h2 : log.invoiceNumber ∈ rest.map (fun s => s.invoiceNumber)
        · rw [if_pos h2, if_pos (hmem.mpr h2)]
        · rw [if_neg h2, if_neg (fun hx => h2 (hmem.mp hx))]
          simp

/-- The inserted log's own entry after an insert. -/
theorem entryFor_insert_same (m : List InventorySessionSummary) (log : InventoryLog) :
    entryFor (insertSessionLog m log) log.invoiceNumber =
      some (bumpSession ((entryFor m log.invoiceNumber).getD (freshSession log)) log) := by
  induction m with
  | nil => simp [insertSessionLog, entryFor, List.find?_cons, bumpSession, freshSession]
  | cons s rest ih =>
      by_cases h : s.invoiceNumber = log.invoiceNumber
      · rw [show insertSessionLog (s :: rest) log = bumpSession s log :: rest from by
          simp [insertSessionLog, h]]
        simp [entryFor, List.find?_cons, bumpSession_invoiceNumber, h]
      · rw [show insertSessionLog (s :: rest) log = s :: insertSessionLog rest log from by
          simp [insertSessionLog, h]]
        rw [show entryFor (s :: insertSessionLog rest log) log.invoiceNumber =
            entryFor (insertSessionLog rest log) log.invoiceNumber from by
          simp [entryFor, List.find?_cons, h]]
        rw [show entryFor (s :: rest) log.invoiceNumber = entryFor rest log.invoiceNumber from by
          simp [entryFor, List.find?_cons, h]]
        exact ih

/-- An insert leaves every other entry unchanged. -/
theorem entryFor_insert_other (m : List InventorySessionSummary) (log : InventoryLog)
    (n : String) (h : n ≠ log.invoiceNumber) :
    entryFor (insertSessionLog m log) n = entryFor m n := by
  induction m with
  | nil => simp [insertSessionLog, entryFor, List.find?_cons, bumpSession, freshSession, Ne.symm h]
  | cons s rest ih =>
      by_cases hs : s.invoiceNumber = log.invoiceNumber
      · rw [show insertSessionLog (s :: rest) log = bumpSession s log :: rest from by
          simp [insertSessionLog, hs]]
        have hbn : (bumpSession s log).invoiceNumber ≠ n := by
          rw [bumpSession_invoiceNumber, hs]
          exact Ne.symm h
        have hsn : s.invoiceNumber ≠ n := by
          rw [hs]
          exact Ne.symm h
        simp [entryFor, List.find?_cons, hbn, hsn]
      · rw [show insertSessionLog (s :: rest) log = s :: insertSessionLog rest log from by
          simp [insertSessionLog, hs]]
        by_cases hsn : s.invoiceNumber = n
        · simp [entryFor, List.find?_cons, hsn]
        · simp only [entryFor, List.find?_cons]
          rw [show (s.invoiceNumber == n) = false by simpa using hsn]
          exact ih

/-- Bumping a fresh entry with its own log summarizes the singleton group. -/
theorem bumpSession_freshSession (log : InventoryLog) :
    bumpSession (freshSession log) log = specSummary log.invoiceNumber [log] := by
  unfold bumpSession freshSession specSummary maxTs dedupFirst pushUnique
  simp

/-- Bumping the summary of a group with a new log summarizes the extended
group. -/
theorem bumpSession_specSummary (n : String) (g : List InventoryLog) (log : InventoryLog)
    (hg : g ≠ []) :
    bumpSession (specSummary n g) log = specSummary n (g ++ [log]) := by
  have h2 : pushUnique (dedupFirst (g.map (fun l => l.userId))) log.userId =
      dedupFirst ((g ++ [log]).map (fun l => l.userId)) := by
    rw [show (g ++ [log]).map (fun l => l.userId) =
        g.map (fun l => l.userId) ++ [log.userId] from by simp]
    rw [dedupFirst_snoc]
  unfold bumpSession specSummary
  simp only [InventorySessionSummary.mk.injEq, true_and]
  refine ⟨?_, by simp, ?_⟩
  · simpa using (maxTs_snoc g log hg).symm
  · simpa [pushUnique] using h2

/-- One fold step of `sessionsMap` preserves the group invariant. -/
theorem goodSessions_step (pre : List InventoryLog) (m : List InventorySessionSummary)
    (log : InventoryLog) (h : GoodSessions pre m) :
    GoodSessions (pre ++ [log]) (insertSessionLog m log) := by
  obtain ⟨hkeys, hent⟩ := h
  constructor
  · rw [insertSessionLog_keys, hkeys]
    rw [show (pre ++ [log]).map (fun l => l.invoiceNumber) =
        pre.map (fun l => l.invoiceNumber) ++ [log.invoiceNumber] from by simp]
    rw [dedupFirst_snoc]
    unfold pushUnique
    by_cases hmem : log.invoiceNumber ∈ dedupFirst (pre.map (fun l => l.invoiceNumber))
    · rw [if_pos hmem, if_pos (List.elem_iff.mpr hmem)]
    · rw [if_neg hmem, if_neg (fun hc => hmem (List.elem_iff.mp hc))]
  · intro n
    by_cases hn : n = log.invoiceNumber
    · subst hn
      rw [entryFor_insert_same, hent]
      rw [List.filter_append]
      rw [show [log].filter (fun l => l.invoiceNumber == log.invoiceNumber) = [log] from by simp]
      by_cases hg : (pre.filter (fun l => l.invoiceNumber == log.invoiceNumber)).isEmpty
      · rw [if_pos hg]
        rw [show pre.filter (fun l => l.invoiceNumber == log.invoiceNumber) = [] from by
          simpa using hg]
        simp only [List.nil_append, Option.getD_none]
        rw [if_neg (by simp)]
        rw [bumpSession_freshSession]
      · rw [if_neg hg]
        have hne : pre.filter (fun l => l.invoiceNumber == log.invoiceNumber) ≠ [] := by
          simpa using hg
        simp only [Option.getD_some]
        rw [if_neg (by simp)]
        rw [bumpSession_specSummary _ _ _ hne]
    · rw [entryFor_insert_other _ _ _ hn, hent]
      rw [List.filter_append]
      rw [show [log].filter (fun l => l.invoiceNumber == n) = [] from by
        simp [Ne.symm hn]]
      rw [List.append_nil]

/-- The whole fold preserves the group invariant. -/
theorem goodSessions_fold (logs : List InventoryLog) :
    ∀ (pre : List InventoryLog) (m : List InventorySessionSummary),
      GoodSessions pre m → GoodSessions (pre ++ logs) (logs.foldl insertSessionLog m) := by
  induction logs with
  | nil =>
      intro pre m h
      simpa using h
  | cons log rest ih =>
      intro pre m h
      have h3 := ih (pre ++ [log]) _ (goodSessions_step pre m log h)
      simpa [List.append_assoc] using h3

/-- The finished `sessionsMap` satisfies the group invariant. -/
theorem goodSessions_sessionsMapOf (logs : List InventoryLog) :
    GoodSessions logs (sessionsMapOf logs) := by
  have hbase : GoodSessions [] [] := by
    constructor
    · simp [dedupFirst]
    · intro n
      simp [entryFor]
  have h := goodSessions_fold logs [] [] hbase
  simpa [sessionsMapOf] using h

/-- With distinct keys, each member is found under its own invoice number. -/
theorem entryFor_of_mem_nodup (m : List InventorySessionSummary)
    (hnd : (m.map (fun s => s.invoiceNumber)).Nodup) (s : InventorySessionSummary)
    (hs : s ∈ m) : entryFor m s.invoiceNumber = some s := by
  induction m with
  | nil => cases hs
  | cons t rest ih =>
      rw [List.map_cons, List.nodup_cons] at hnd
      rcases List.mem_cons.1 hs with rfl | hmem
      · simp [entryFor, List.find?_cons]
      · have ht : t.invoiceNumber ≠ s.invoiceNumber := by
          intro he
          exact hnd.1 (he ▸ List.mem_map.2 ⟨s, hmem, rfl⟩)
        simp only [entryFor, List.find?_cons]
        rw [show (t.invoiceNumber == s.invoiceNumber) = false by simpa using ht]
        exact ih hnd.2 hmem

/-- C6: the session summarizer returns one summary per distinct invoice
number (in some order), sorted descending by last activity, where each
summary's last activity is the maximum timestamp of its group, its total is
the number of scan events of the group, and its users are the distinct user
ids of the group in first-appearance order. -/
theorem sessions_summarizer_spec (logs : List InventoryLog) :
    ((getActiveSessions logs).map (fun s => s.invoiceNumber)).Perm
      (dedupFirst (logs.map (fun l => l.invoiceNumber))) ∧
    (getActiveSessions logs).Pairwise (fun a b => b.lastActivity ≤ a.lastActivity) ∧
    ∀ s ∈ getActiveSessions logs,
      logs.filter (fun l => l.invoiceNumber == s.invoiceNumber) ≠ [] ∧
      s.lastActivity = maxTs (logs.filter (fun l => l.invoiceNumber == s.invoiceNumber)) ∧
      s.totalItemsScanned = (logs.filter (fun l => l.invoiceNumber == s.invoiceNumber)).length ∧
      s.usersInvolved =
        dedupFirst ((logs.filter (fun l => l.invoiceNumber == s.invoiceNumber)).map
          (fun l => l.userId)) := by
  obtain ⟨hkeys, hent⟩ := goodSessions_sessionsMapOf logs
  have hperm : (getActiveSessions logs).Perm (sessionsMapOf logs) :=
    List.perm_insertionSort sessionLe (sessionsMapOf logs)
  refine ⟨?_, ?_, ?_⟩
  · have h := hperm.map (fun s => s.invoiceNumber)
    rw [hkeys] at h
    exact h
  · exact List.sorted_insertionSort sessionLe (sessionsMapOf logs)
  · intro s hs
    have hmem : s ∈ sessionsMapOf logs := hperm.mem_iff.mp hs
    have hnd : ((sessionsMapOf logs).map (fun s => s.invoiceNumber)).Nodup := by
      rw [hkeys]
      exact nodup_dedupFirst _
    have he := entryFor_of_mem_nodup _ hnd s hmem
    have he2 := hent s.invoiceNumber
    rw [he] at he2
    by_cases hg : (logs.filter (fun l => l.invoiceNumber == s.invoiceNumber)).isEmpty
    · rw [if_pos hg] at he2
      cases he2
    · rw [if_neg hg] at he2
      injection he2 with he3
      have hne : logs.filter (fun l => l.invoiceNumber == s.invoiceNumber) ≠ [] := by
        simpa using hg
      refine ⟨hne, ?_, ?_, ?_⟩ <;> rw [he3] <;> simp [specSummary]

/-- Witness for C6 at the three-event demo session of invoice 001. -/
theorem sessions_summarizer_spec_witness :
    sessionDemoLogs.filter (fun l => l.invoiceNumber ==
      (⟨"001", 200, 3, ["u1", "u2"]⟩ : InventorySessionSummary).invoiceNumber) ≠ [] ∧
    (⟨"001", 200, 3, ["u1", "u2"]⟩ : InventorySessionSummary).lastActivity =
      maxTs (sessionDemoLogs.filter (fun l => l.invoiceNumber ==
        (⟨"001", 200, 3, ["u1", "u2"]⟩ : InventorySessionSummary).invoiceNumber)) ∧
    (⟨"001", 200, 3, ["u1", "u2"]⟩ : InventorySessionSummary).totalItemsScanned =
      (sessionDemoLogs.filter (fun l => l.invoiceNumber ==
        (⟨"001", 200, 3, ["u1", "u2"]⟩ : InventorySessionSummary).invoiceNumber)).length ∧
    (⟨"001", 200, 3, ["u1", "u2"]⟩ : InventorySessionSummary).usersInvolved =
      dedupFirst ((sessionDemoLogs.filter (fun l => l.invoiceNumber ==
        (⟨"001", 200, 3, ["u1", "u2"]⟩ : InventorySessionSummary).invoiceNumber)).map
          (fun l => l.userId)) :=
  (sessions_summarizer_spec sessionDemoLogs).2.2 ⟨"001", 200, 3, ["u1", "u2"]⟩
    (by simp +decide [getActiveSessions, sessionsMapOf, insertSessionLog, bumpSession,
      freshSession, sessionDemoLogs, List.insertionSort, List.orderedInsert, sessionLe])
